import Mathlib

/-!
Verification of the todo MCP server (`server.py`): a JSON-file-backed task
store with operations add_task, list_tasks, complete_task, update_task,
delete_task and clear_completed.

The Python code is shallowly embedded:
* JSON values are the inductive `Json`; numbers are either integers or
  decimal floats `float m e` denoting m / 10^e (so client-supplied values
  such as 1.9 are representable; Python `int()` on a float truncates
  toward zero).
* Python dynamic coercions `int(..)`, `str(..)`, `bool(..)` and `dict.get`
  are modelled by `pyInt`, `pyStr`, `pyBool`, `pyGet`/`jgetD`; raised
  exceptions become `Except.error`.
* The backing file is a `Medium`: absent, bytes that are not valid UTF-8
  (`json.load` then raises `UnicodeDecodeError`, which server.py:44-48
  does NOT catch — only `json.JSONDecodeError` is), text that fails JSON
  decoding (`JSONDecodeError`, caught), or a JSON value.  `load_db` models
  `_load_db` and so returns `Except`; `db_to_json` is the document
  `_save_db` writes.
* The wall clock is abstracted by threading the `isoformat()` part of
  `_now_iso` as a `base : String` argument; `now_iso base = base ++ "Z"`
  mirrors line 32 (`... .isoformat() + "Z"`).
* Each tool body (the code inside `with _lock:`) becomes a pure function
  from the loaded document `Db` and its arguments to an `OpResult`: the
  returned/raised value plus `saved? : Option Db`, the document passed to
  `_save_db` (none when `_save_db` was not called).  The extra keys a
  loaded dict might carry besides `next_id`/`tasks` are dropped from the
  model: no operation reads them.
-/

namespace Todo

/-- JSON values.  `float m e` is the decimal float m / 10^e (e.g.
`float 19 1` is 1.9): enough to model Python `float` wherever the server
coerces it (`int()` truncation, truthiness). -/
inductive Json where
  | null
  | bool (b : Bool)
  | int (n : Int)
  | float (m : Int) (e : Nat)
  | str (s : String)
  | arr (xs : List Json)
  | obj (fields : List (String × Json))
deriving Repr

mutual

/-- Python `repr(x)` for the JSON-representable values, used by `str()` on
non-string values.  Exact text of composite values only matters through
being non-empty. -/
def pyRepr : Json → String
  | .null => "None"
  | .bool b => if b then "True" else "False"
  | .int n => toString n
  | .float m e => toString m ++ "E-" ++ toString e
  | .str s => "'" ++ s ++ "'"
  | .arr xs => "[" ++ pyReprList xs ++ "]"
  | .obj fs => "\x7b" ++ pyReprFields fs ++ "\x7d"

def pyReprList : List Json → String
  | [] => ""
  | [x] => pyRepr x
  | x :: xs => pyRepr x ++ ", " ++ pyReprList xs

def pyReprFields : List (String × Json) → String
  | [] => ""
  | [(k, v)] => "'" ++ k ++ "': " ++ pyRepr v
  | (k, v) :: fs => "'" ++ k ++ "': " ++ pyRepr v ++ ", " ++ pyReprFields fs

end

/-- Python `str(x)`. -/
def pyStr : Json → String
  | .str s => s
  | j => pyRepr j

/-- Python truthiness `bool(x)`. -/
def pyBool : Json → Bool
  | .null => false
  | .bool b => b
  | .int n => n != 0
  | .float m _ => m != 0
  | .str s => s != ""
  | .arr xs => !xs.isEmpty
  | .obj fs => !fs.isEmpty

/-- The default whitespace of Python `str.strip()` (ASCII subset). -/
def isSpace (c : Char) : Bool :=
  c = ' ' || c = '\t' || c = '\n' || c = '\r' || c = '\x0b' || c = '\x0c'

/-- Python `s.strip()`: drop leading and trailing whitespace. -/
def pyStrip (s : String) : String :=
  ⟨((s.data.dropWhile isSpace).reverse.dropWhile isSpace).reverse⟩

def digitsToNatAux : List Char → Nat → Option Nat
  | [], acc => some acc
  | c :: cs, acc =>
    if c.isDigit then digitsToNatAux cs (acc * 10 + (c.toNat - 48)) else none

def digitsToNat : List Char → Option Nat
  | [] => none
  | ds => digitsToNatAux ds 0

/-- Python `int(s)` on a string: optional sign and decimal digits, with
surrounding whitespace allowed; anything else raises ValueError. -/
def pyIntOfString (s : String) : Option Int :=
  match (pyStrip s).data with
  | '-' :: ds => (digitsToNat ds).map (fun n => -(n : Int))
  | '+' :: ds => (digitsToNat ds).map (fun n => (n : Int))
  | ds => (digitsToNat ds).map (fun n => (n : Int))

/-- Python `int(x)`: ints pass through, bools coerce to 0/1, floats
truncate toward zero, strings are parsed as decimal integer literals,
everything else raises. -/
def pyInt : Json → Except String Int
  | .int n => .ok n
  | .bool b => .ok (if b then 1 else 0)
  | .float m e => .ok (Int.tdiv m (10 ^ e))
  | .str s =>
    match pyIntOfString s with
    | some n => .ok n
    | none => .error "ValueError: invalid literal for int()"
  | _ => .error "TypeError: int() argument must not be None"

/-- `d.get(key, default)` on a value already known to be a dict (first
binding wins, as Python dicts have unique keys). -/
def jgetD (j : Json) (key : String) (dflt : Json) : Json :=
  match j with
  | .obj fs => (fs.lookup key).getD dflt
  | _ => dflt

/-- `x.get(key, default)` on an arbitrary value: raises `AttributeError`
when `x` is not a dict. -/
def pyGet (j : Json) (key : String) (dflt : Json) : Except String Json :=
  match j with
  | .obj _ => .ok (jgetD j key dflt)
  | _ => .error "AttributeError: object has no attribute get"

/-- `_now_iso` (server.py:31-32): `base` abstracts
`datetime.utcnow().replace(microsecond=0).isoformat()`. -/
def now_iso (base : String) : String := base ++ "Z"

/-- The `Task` dataclass (server.py:21-28).  `due_date` and `completed_at`
hold the raw JSON value (`Optional[str]` is not enforced at runtime). -/
structure Task where
  id : Int
  title : String
  due_date : Json
  completed : Bool
  created_at : String
  completed_at : Json
deriving Repr

/-- `_serialize_task` = `asdict` (server.py:82-83). -/
def serialize_task (t : Task) : Json :=
  .obj [("id", .int t.id), ("title", .str t.title), ("due_date", t.due_date),
        ("completed", .bool t.completed), ("created_at", .str t.created_at),
        ("completed_at", t.completed_at)]

/-- `_task_from_dict` (server.py:70-79).  `int(d.get("id"))` raises on a
missing id (the only field whose absence is not defaulted); `str(...) or
_now_iso()` backfills an empty `created_at`. -/
def task_from_dict (base : String) (d : Json) : Except String Task :=
  match pyGet d "id" .null with
  | .error e => .error e
  | .ok idj =>
    match pyInt idj with
    | .error e => .error e
    | .ok idv =>
      .ok { id := idv,
            title := pyStr (jgetD d "title" (.str "")),
            due_date := jgetD d "due_date" .null,
            completed := pyBool (jgetD d "completed" (.bool false)),
            created_at :=
              if pyStr (jgetD d "created_at" (.str "")) = "" then now_iso base
              else pyStr (jgetD d "created_at" (.str "")),
            completed_at := jgetD d "completed_at" .null }

/-- The in-memory document: the two keys every operation reads. -/
structure Db where
  next_id : Int
  tasks : List Json
deriving Repr

/-- `_default_db` (server.py:35-36). -/
def default_db : Db := ⟨1, []⟩

/-- The state of the backing file: absent; present but its bytes are not
valid UTF-8 (reading raises `UnicodeDecodeError`); present and decodable
but not JSON (`json.load` raises `json.JSONDecodeError`); or holding a
JSON value. -/
inductive Medium where
  | absent
  | undecodable
  | malformed
  | content (j : Json)

/-- `isinstance(x, int)` — true for bools as well (bool subclasses int). -/
def pyIsInstInt : Json → Bool
  | .int _ => true
  | .bool _ => true
  | _ => false

/-- Numeric value of an `isinstance(·, int)` value. -/
def pyIntVal : Json → Int
  | .int n => n
  | .bool b => if b then 1 else 0
  | _ => 0

/-- The shape validation / migration section of `_load_db`
(server.py:50-60), applied to a successfully decoded JSON document.  A
`next_id` that is a Python int (or bool) is viewed through its numeric
value, which the rest of the program uses. -/
def validate_db (j : Json) : Db :=
  match j with
  | .obj fs =>
    if (fs.lookup "next_id").isSome ∧ (fs.lookup "tasks").isSome then
      let tasks := match (fs.lookup "tasks").getD .null with
        | .arr xs => xs
        | _ => []
      let nidv := (fs.lookup "next_id").getD .null
      let nid := if pyIsInstInt nidv ∧ 1 ≤ pyIntVal nidv then pyIntVal nidv else 1
      ⟨nid, tasks⟩
    else default_db
  | _ => default_db

/-- `_load_db` (server.py:39-60).  The `try` at lines 44-48 catches only
`json.JSONDecodeError`; a file whose bytes are not valid UTF-8 makes
`json.load` raise `UnicodeDecodeError`, which propagates uncaught. -/
def load_db : Medium → Except String Db
  | .absent => .ok default_db
  | .undecodable => .error "UnicodeDecodeError: invalid start byte"
  | .malformed => .ok default_db
  | .content j => .ok (validate_db j)

/-- The JSON document `_save_db` (server.py:63-67) writes for a `Db`. -/
def db_to_json (d : Db) : Json :=
  .obj [("next_id", .int d.next_id), ("tasks", .arr d.tasks)]

/-- Outcome of one tool invocation: the returned value or raised error,
plus the document handed to `_save_db` (`none` = no save happened). -/
structure OpResult (α : Type) where
  res : Except String α
  saved? : Option Db
deriving Repr

/-- The Task record `add_task` constructs (server.py:107-114): id is
`next_id` before increment, the title already stripped and non-empty, the
due date stripped with empty-after-strip treated as absent. -/
def newTask (db : Db) (title : String) (due_date : Option String) (base : String) : Task :=
  { id := db.next_id, title := pyStrip title,
    due_date := match due_date with
      | some s => if pyStrip s ≠ "" then .str (pyStrip s) else .null
      | none => .null,
    completed := false, created_at := now_iso base, completed_at := .null }

/-- `add_task` (server.py:87-119). -/
def add_task (db : Db) (title : String) (due_date : Option String) (base : String) :
    OpResult Task :=
  if pyStrip title = "" then ⟨.error "ValueError: title must be a non-empty string", none⟩
  else
    ⟨.ok (newTask db title due_date base),
     some ⟨db.next_id + 1, db.tasks ++ [serialize_task (newTask db title due_date base)]⟩⟩

/-- The list comprehension of `list_tasks` (server.py:134): filter on the
raw `completed` flag, converting the survivors with `_task_from_dict`,
evaluated left to right with the first exception aborting. -/
def parseFiltered (base : String) (is_completed : Bool) : List Json → Except String (List Task)
  | [] => .ok []
  | t :: ts =>
    match pyGet t "completed" (.bool false) with
    | .error e => .error e
    | .ok c =>
      if pyBool c = is_completed then
        match task_from_dict base t with
        | .error e => .error e
        | .ok tk =>
          match parseFiltered base is_completed ts with
          | .error e => .error e
          | .ok rest => .ok (tk :: rest)
      else
        parseFiltered base is_completed ts

/-- The sort key comparison of server.py:136: Python tuples
`(t.completed, t.id)` ordered lexicographically with `False < True`. -/
def taskLe (a b : Task) : Bool :=
  (if a.completed then 1 else 0) < (if b.completed then (1:Nat) else 0) ||
  (a.completed == b.completed && a.id ≤ b.id)

/-- `list_tasks` (server.py:123-137); never saves. -/
def list_tasks (db : Db) (is_completed : Bool) (base : String) :
    Except String (List Task) :=
  match parseFiltered base is_completed db.tasks with
  | .error e => .error e
  | .ok tasks => .ok (tasks.mergeSort taskLe)

/-- The search loop of `complete_task` (server.py:154-166): returns the
updated task list, the found task and whether `_save_db` was called, or
`none` when no task matched. -/
def completeLoop (task_id : Json) (base : String) :
    List Json → Except String (Option (List Json × Task × Bool))
  | [] => .ok none
  | t :: ts =>
    match pyGet t "id" .null with
    | .error e => .error e
    | .ok sidj =>
      match pyInt sidj with
      | .error e => .error e
      | .ok sid =>
        match pyInt task_id with
        | .error e => .error e
        | .ok tid =>
          if sid = tid then
            match task_from_dict base t with
            | .error e => .error e
            | .ok task =>
              if task.completed then
                .ok (some (t :: ts, task, false))
              else
                let task :=
                  { task with completed := true, completed_at := .str (now_iso base) }
                .ok (some (serialize_task task :: ts, task, true))
          else
            match completeLoop task_id base ts with
            | .error e => .error e
            | .ok none => .ok none
            | .ok (some (ts', tk, sv)) => .ok (some (t :: ts', tk, sv))

/-- `complete_task` (server.py:141-171). -/
def complete_task (db : Db) (task_id : Json) (base : String) : OpResult Task :=
  match completeLoop task_id base db.tasks with
  | .error e => ⟨.error e, none⟩
  | .ok none => ⟨.error "ValueError: task_id not found", none⟩
  | .ok (some (ts', tk, sv)) =>
    ⟨.ok tk, if sv then some ⟨db.next_id, ts'⟩ else none⟩

/-- The title edit of server.py:215-219 (validates, then replaces). -/
def applyTitle (title? : Option String) (task : Task) : Except String Task :=
  match title? with
  | some s =>
    if pyStrip s = "" then .error "ValueError: title must be non-empty when provided"
    else .ok { task with title := pyStrip s }
  | none => .ok task

/-- The due-date edit of server.py:220-222 (trims; empty clears). -/
def applyDue (due? : Option String) (task : Task) : Task :=
  match due? with
  | some s => { task with due_date := if pyStrip s = "" then Json.null else .str (pyStrip s) }
  | none => task

/-- The search loop of `update_task` (server.py:212-226). -/
def updateLoop (task_id : Json) (title? due? : Option String) (base : String) :
    List Json → Except String (Option (List Json × Task))
  | [] => .ok none
  | t :: ts =>
    match pyGet t "id" .null with
    | .error e => .error e
    | .ok sidj =>
      match pyInt sidj with
      | .error e => .error e
      | .ok sid =>
        match pyInt task_id with
        | .error e => .error e
        | .ok tid =>
          if sid = tid then
            match task_from_dict base t with
            | .error e => .error e
            | .ok task =>
              match applyTitle title? task with
              | .error e => .error e
              | .ok task =>
                let task := applyDue due? task
                .ok (some (serialize_task task :: ts, task))
          else
            match updateLoop task_id title? due? base ts with
            | .error e => .error e
            | .ok none => .ok none
            | .ok (some (ts', tk)) => .ok (some (t :: ts', tk))

/-- `update_task` (server.py:197-231): saves whenever the task was found. -/
def update_task (db : Db) (task_id : Json) (title? due? : Option String) (base : String) :
    OpResult Task :=
  match updateLoop task_id title? due? base db.tasks with
  | .error e => ⟨.error e, none⟩
  | .ok none => ⟨.error "ValueError: task_id not found", none⟩
  | .ok (some (ts', tk)) => ⟨.ok tk, some ⟨db.next_id, ts'⟩⟩

/-- The filtering comprehension of `delete_task` (server.py:187): keeps the
tasks whose id does not coerce equal to `int(task_id)`. -/
def deleteLoop (task_id : Json) : List Json → Except String (List Json)
  | [] => .ok []
  | t :: ts =>
    match pyGet t "id" .null with
    | .error e => .error e
    | .ok sidj =>
      match pyInt sidj with
      | .error e => .error e
      | .ok sid =>
        match pyInt task_id with
        | .error e => .error e
        | .ok tid =>
          match deleteLoop task_id ts with
          | .error e => .error e
          | .ok rest => .ok (if sid ≠ tid then t :: rest else rest)

/-- Result dict of `delete_task` (server.py:193). -/
structure DeleteResult where
  deleted : Bool
  task_id : Int
deriving Repr, DecidableEq

/-- `delete_task` (server.py:177-193).  The final `int(task_id)` of the
return expression runs after the save; it cannot fail there, having
already succeeded inside the comprehension (proved below). -/
def delete_task (db : Db) (task_id : Json) : OpResult DeleteResult :=
  match deleteLoop task_id db.tasks with
  | .error e => ⟨.error e, none⟩
  | .ok ts' =>
    if ts'.length = db.tasks.length then ⟨.error "ValueError: task_id not found", none⟩
    else
      match pyInt task_id with
      | .ok n => ⟨.ok ⟨true, n⟩, some ⟨db.next_id, ts'⟩⟩
      | .error e => ⟨.error e, some ⟨db.next_id, ts'⟩⟩

/-- The filtering comprehension of `clear_completed` (server.py:245). -/
def clearLoop : List Json → Except String (List Json)
  | [] => .ok []
  | t :: ts =>
    match pyGet t "completed" (.bool false) with
    | .error e => .error e
    | .ok c =>
      match clearLoop ts with
      | .error e => .error e
      | .ok rest => .ok (if !pyBool c then t :: rest else rest)

/-- `clear_completed` (server.py:235-249): saves unconditionally. -/
def clear_completed (db : Db) : OpResult Nat :=
  match clearLoop db.tasks with
  | .error e => ⟨.error e, none⟩
  | .ok ts' => ⟨.ok (db.tasks.length - ts'.length), some ⟨db.next_id, ts'⟩⟩

/-- One whole `add_task` invocation against the backing medium: load,
run, and persist what (if anything) was saved. -/
def addInvocation (m : Medium) (title : String) (due : Option String) (base : String) :
    Medium × Except String Task :=
  match load_db m with
  | .error e => (m, .error e)
  | .ok db =>
    let out := add_task db title due base
    match out.saved? with
    | some db' => (.content (db_to_json db'), out.res)
    | none => (m, out.res)

/-- A sequence of `add_task` invocations, each reloading the medium as the
server does; collects the ids of the successful calls. -/
def runAdds : Medium → List (String × Option String × String) → Medium × List Int
  | m, [] => (m, [])
  | m, (title, due, base) :: rest =>
    let (m', r) := addInvocation m title due base
    let (mFinal, ids) := runAdds m' rest
    match r with
    | .ok t => (mFinal, t.id :: ids)
    | .error _ => (mFinal, ids)

/-- Strictly increasing, as an executable predicate on id lists. -/
def strictIncr : List Int → Bool
  | [] => true
  | [_] => true
  | a :: b :: t => a < b && strictIncr (b :: t)

/-- `int(t.get("id"))`, the id coercion every locate loop applies to a
stored record (server.py:155, 187, 213). -/
def rawId (j : Json) : Except String Int :=
  match pyGet j "id" .null with
  | .error e => .error e
  | .ok v => pyInt v

/-- The completed/completed_at biconditional on a raw stored record, read
through the same coercions the parser uses. -/
def rawOK (j : Json) : Prop :=
  jgetD j "completed_at" .null ≠ Json.null ↔ pyBool (jgetD j "completed" (.bool false)) = true

/-- `completed_at` is non-null iff `completed` is true, on a parsed task. -/
def TaskOK (t : Task) : Prop :=
  t.completed_at ≠ Json.null ↔ t.completed = true

/-- Every stored record of the document satisfies the biconditional. -/
def DbOK (db : Db) : Prop := ∀ j ∈ db.tasks, rawOK j

/-! ## Basic lemmas -/

theorem now_iso_ne_empty (base : String) : now_iso base ≠ "" := by
  intro h
  have hl := congrArg String.length h
  simp [now_iso] at hl
  exact absurd hl.2 (by decide)

theorem task_from_dict_fields {base : String} {d : Json} {t : Task}
    (h : task_from_dict base d = .ok t) :
    rawId d = .ok t.id ∧
    t.title = pyStr (jgetD d "title" (.str "")) ∧
    t.due_date = jgetD d "due_date" .null ∧
    t.completed = pyBool (jgetD d "completed" (.bool false)) ∧
    t.completed_at = jgetD d "completed_at" .null ∧
    t.created_at =
      (if pyStr (jgetD d "created_at" (.str "")) = "" then now_iso base
       else pyStr (jgetD d "created_at" (.str ""))) := by
  unfold task_from_dict at h
  unfold rawId
  cases hg : pyGet d "id" .null with
  | error e => simp [hg] at h
  | ok v =>
    simp only [hg] at h
    cases hi : pyInt v with
    | error e => simp [hi] at h
    | ok n =>
      simp only [hi, Except.ok.injEq] at h
      subst h
      simp [hg, hi]

theorem task_from_dict_created_at_ne {base : String} {d : Json} {t : Task}
    (h : task_from_dict base d = .ok t) : t.created_at ≠ "" := by
  have hf := (task_from_dict_fields h).2.2.2.2.2
  rw [hf]
  split
  · exact now_iso_ne_empty base
  · assumption

theorem serialize_jget (t : Task) (dflt : Json) :
    jgetD (serialize_task t) "id" dflt = .int t.id ∧
    jgetD (serialize_task t) "title" dflt = .str t.title ∧
    jgetD (serialize_task t) "due_date" dflt = t.due_date ∧
    jgetD (serialize_task t) "completed" dflt = .bool t.completed ∧
    jgetD (serialize_task t) "created_at" dflt = .str t.created_at ∧
    jgetD (serialize_task t) "completed_at" dflt = t.completed_at := by
  refine ⟨rfl, rfl, rfl, rfl, rfl, rfl⟩

theorem task_from_dict_serialize (base : String) (t : Task) (h : t.created_at ≠ "") :
    task_from_dict base (serialize_task t) = .ok t := by
  obtain ⟨i, ti, dd, c, ca, cat⟩ := t
  simp only [ne_eq] at h
  simp [task_from_dict, serialize_task, pyGet, jgetD, List.lookup, pyInt, pyStr, pyBool, h]

/-! ## Record store: load behavior -/

theorem validate_db_next_id_pos (j : Json) : 1 ≤ (validate_db j).next_id := by
  cases j <;> try exact le_refl 1
  case obj fs =>
    by_cases hA : ((fs.lookup "next_id").isSome = true ∧ (fs.lookup "tasks").isSome = true)
    · by_cases hB : (pyIsInstInt ((fs.lookup "next_id").getD .null) = true ∧
          1 ≤ pyIntVal ((fs.lookup "next_id").getD .null))
      · simp only [validate_db, if_pos hA, if_pos hB]
        exact hB.2
      · simp only [validate_db, if_pos hA, if_neg hB]
        exact le_refl 1
    · simp only [validate_db, if_neg hA]
      exact le_refl 1

theorem load_db_next_id_pos {m : Medium} {db : Db} (h : load_db m = .ok db) :
    1 ≤ db.next_id := by
  cases m with
  | absent =>
    simp only [load_db, Except.ok.injEq] at h
    subst h
    exact le_refl 1
  | undecodable => exact absurd h (by simp [load_db])
  | malformed =>
    simp only [load_db, Except.ok.injEq] at h
    subst h
    exact le_refl 1
  | content j =>
    simp only [load_db, Except.ok.injEq] at h
    subst h
    exact validate_db_next_id_pos j

theorem validate_db_roundtrip (d : Db) (h : 1 ≤ d.next_id) :
    validate_db (db_to_json d) = d := by
  obtain ⟨n, ts⟩ := d
  simp only [Db.next_id] at h
  simp [db_to_json, validate_db, List.lookup, pyIsInstInt, pyIntVal, h]

theorem load_db_roundtrip (d : Db) (h : 1 ≤ d.next_id) :
    load_db (.content (db_to_json d)) = .ok d := by
  simp only [load_db, Except.ok.injEq]
  exact validate_db_roundtrip d h

/-- Claim C2 (corrected): the recovery of `_load_db` covers an absent
medium, a `json.JSONDecodeError`, a non-dict document, or missing top-level
keys — each yields the fresh Document `⟨1, []⟩`; a `tasks` value that is
not a sequence is replaced by the empty sequence and a `next_id` that is
not a positive integer by 1.  But it is not total corruption-tolerance: a
present file whose bytes are not valid UTF-8 makes `load()` itself raise an
uncaught `UnicodeDecodeError` (the `except` at server.py:46 names only
`json.JSONDecodeError`), and corruption *inside* the tasks array surfaces
as an error from operations that parse records (see the counterexample). -/
theorem claim_C2_load_recovery :
    load_db .absent = .ok ⟨1, []⟩ ∧
    load_db .malformed = .ok ⟨1, []⟩ ∧
    load_db .undecodable = .error "UnicodeDecodeError: invalid start byte" ∧
    (∀ j : Json, (∀ fs, j ≠ .obj fs) → load_db (.content j) = .ok ⟨1, []⟩) ∧
    (∀ fs, (List.lookup "next_id" fs).isNone ∨ (List.lookup "tasks" fs).isNone →
      load_db (.content (.obj fs)) = .ok ⟨1, []⟩) ∧
    (∀ fs v, List.lookup "tasks" fs = some v → (∀ xs, v ≠ .arr xs) →
      ∃ db, load_db (.content (.obj fs)) = .ok db ∧ db.tasks = []) ∧
    (∀ fs v, List.lookup "next_id" fs = some v →
      ¬ (pyIsInstInt v = true ∧ 1 ≤ pyIntVal v) →
      ∃ db, load_db (.content (.obj fs)) = .ok db ∧ db.next_id = 1) := by
  refine ⟨rfl, rfl, rfl, ?_, ?_, ?_, ?_⟩
  · intro j hj
    simp only [load_db, Except.ok.injEq]
    cases j with
    | obj fs => exact absurd rfl (hj fs)
    | null => rfl
    | bool b => rfl
    | int n => rfl
    | float m e => rfl
    | str s => rfl
    | arr xs => rfl
  · intro fs hnone
    simp only [load_db, Except.ok.injEq, validate_db]
    split
    · rename_i hsome
      exfalso
      rcases hnone with hn | hn
      · rw [Option.isNone_iff_eq_none] at hn
        rw [hn] at hsome
        exact absurd hsome.1 (by simp)
      · rw [Option.isNone_iff_eq_none] at hn
        rw [hn] at hsome
        exact absurd hsome.2 (by simp)
    · rfl
  · intro fs v hv hnarr
    refine ⟨validate_db (.obj fs), rfl, ?_⟩
    cases v with
    | arr xs => exact absurd rfl (hnarr xs)
    | null => simp only [validate_db, hv, Option.getD_some]; split <;> rfl
    | bool b => simp only [validate_db, hv, Option.getD_some]; split <;> rfl
    | int n => simp only [validate_db, hv, Option.getD_some]; split <;> rfl
    | float m e => simp only [validate_db, hv, Option.getD_some]; split <;> rfl
    | str s => simp only [validate_db, hv, Option.getD_some]; split <;> rfl
    | obj fs2 => simp only [validate_db, hv, Option.getD_some]; split <;> rfl
  · intro fs v hv hbad
    refine ⟨validate_db (.obj fs), rfl, ?_⟩
    simp only [validate_db, hv, Option.getD_some]
    rw [if_neg hbad]
    split <;> rfl

theorem claim_C2_load_recovery_witness :
    load_db (.content (.int 3)) = .ok (⟨1, []⟩ : Db) ∧
    load_db (.content (.obj [("tasks", .arr [])])) = .ok (⟨1, []⟩ : Db) ∧
    (∃ db, load_db (.content (.obj [("next_id", .int 2), ("tasks", .str "x")]))
      = .ok db ∧ db.tasks = []) ∧
    (∃ db, load_db (.content (.obj [("next_id", .str "x"), ("tasks", .arr [])]))
      = .ok db ∧ db.next_id = 1) :=
  ⟨claim_C2_load_recovery.2.2.2.1 (.int 3) (fun _ => nofun),
   claim_C2_load_recovery.2.2.2.2.1 [("tasks", .arr [])] (Or.inl rfl),
   claim_C2_load_recovery.2.2.2.2.2.1 [("next_id", .int 2), ("tasks", .str "x")] (.str "x")
     rfl (fun _ => nofun),
   claim_C2_load_recovery.2.2.2.2.2.2 [("next_id", .str "x"), ("tasks", .arr [])] (.str "x")
     rfl (fun h => nomatch h.1)⟩

/-- Claim C2, counterexamples to "load() never fails" and to its final
clause: (a) a present backing file whose bytes are not valid UTF-8 makes
`_load_db` raise an uncaught `UnicodeDecodeError` (server.py:44-48 catches
only `json.JSONDecodeError`); (b) a perfectly decodable document whose
tasks array holds a record without an "id" key loads without error, but
`list_tasks` then surfaces the per-record corruption as an uncaught
`TypeError` (`int(None)`) to its caller. -/
theorem claim_C2_counterexample :
    load_db .undecodable = .error "UnicodeDecodeError: invalid start byte" ∧
    load_db (.content (.obj [("next_id", .int 1),
        ("tasks", .arr [.obj [("title", .str "x")]])]))
      = .ok ⟨1, [.obj [("title", .str "x")]]⟩ ∧
    list_tasks ⟨1, [.obj [("title", .str "x")]]⟩ false "T"
      = .error "TypeError: int() argument must not be None" :=
  ⟨rfl, rfl, rfl⟩

/-! ## Defensive task parsing -/

theorem parseFiltered_mem {base : String} {b : Bool} {ts : List Json} {l : List Task}
    (h : parseFiltered base b ts = .ok l) :
    ∀ t ∈ l, ∃ j ∈ ts, task_from_dict base j = .ok t := by
  induction ts generalizing l with
  | nil =>
    simp only [parseFiltered, Except.ok.injEq] at h
    subst h
    simp
  | cons x xs ih =>
    simp only [parseFiltered] at h
    cases hg : pyGet x "completed" (.bool false) with
    | error e => simp only [hg] at h; exact absurd h (by simp)
    | ok c =>
      simp only [hg] at h
      by_cases hc : pyBool c = b
      · rw [if_pos hc] at h
        cases hp : task_from_dict base x with
        | error e => simp only [hp] at h; exact absurd h (by simp)
        | ok tk =>
          simp only [hp] at h
          cases hrest : parseFiltered base b xs with
          | error e => simp only [hrest] at h; exact absurd h (by simp)
          | ok rest =>
            simp only [hrest] at h
            simp only [Except.ok.injEq] at h
            subst h
            intro t ht
            rcases List.mem_cons.mp ht with rfl | ht
            · exact ⟨x, List.mem_cons_self x xs, hp⟩
            · obtain ⟨j, hj, hpj⟩ := ih hrest t ht
              exact ⟨j, List.mem_cons_of_mem _ hj, hpj⟩
      · rw [if_neg hc] at h
        intro t ht
        obtain ⟨j, hj, hpj⟩ := ih h t ht
        exact ⟨j, List.mem_cons_of_mem _ hj, hpj⟩

theorem list_tasks_mem {db : Db} {b : Bool} {base : String} {l : List Task}
    (h : list_tasks db b base = .ok l) :
    ∀ t ∈ l, ∃ j ∈ db.tasks, task_from_dict base j = .ok t := by
  unfold list_tasks at h
  cases hp : parseFiltered base b db.tasks with
  | error e => simp only [hp] at h; exact absurd h (by simp)
  | ok raw =>
    simp only [hp] at h
    simp only [Except.ok.injEq] at h
    subst h
    intro t ht
    exact parseFiltered_mem hp t ((raw.mergeSort_perm taskLe).mem_iff.mp ht)

/-- Claim C5: individual task records are parsed defensively — a missing
`due_date`, `completed` or `completed_at` takes its documented default, a
missing or empty `created_at` is backfilled with the current timestamp, and
consequently every task a successful parse (hence every task `list_tasks`
returns) carries a non-empty `created_at`. -/
theorem claim_C5_defensive_parse :
    (∀ (base : String) fs t, task_from_dict base (.obj fs) = .ok t →
      t.created_at ≠ "" ∧
      (List.lookup "due_date" fs = none → t.due_date = .null) ∧
      (List.lookup "completed" fs = none → t.completed = false) ∧
      (List.lookup "completed_at" fs = none → t.completed_at = .null) ∧
      (List.lookup "created_at" fs = none ∨ List.lookup "created_at" fs = some (.str "") →
        t.created_at = now_iso base)) ∧
    (∀ db b base l, list_tasks db b base = .ok l → ∀ t ∈ l, t.created_at ≠ "") := by
  constructor
  · intro base fs t h
    obtain ⟨-, htitle, hdue, hcomp, hcat, hca⟩ := task_from_dict_fields h
    refine ⟨task_from_dict_created_at_ne h, ?_, ?_, ?_, ?_⟩
    · intro hn; rw [hdue]; simp [jgetD, hn]
    · intro hn; rw [hcomp]; simp [jgetD, hn, pyBool]
    · intro hn; rw [hcat]; simp [jgetD, hn]
    · intro hn
      rw [hca]
      rcases hn with hn | hn <;> simp [jgetD, hn, pyStr]
  · intro db b base l h t ht
    obtain ⟨j, _, hpj⟩ := list_tasks_mem h t ht
    exact task_from_dict_created_at_ne hpj

theorem claim_C5_witness :
    (Task.mk 7 "" Json.null false "TZ" Json.null).created_at ≠ "" ∧
    (Task.mk 7 "" Json.null false "TZ" Json.null).due_date = Json.null ∧
    (Task.mk 7 "" Json.null false "TZ" Json.null).completed = false ∧
    (Task.mk 7 "" Json.null false "TZ" Json.null).completed_at = Json.null ∧
    (Task.mk 7 "" Json.null false "TZ" Json.null).created_at = now_iso "T" := by
  have h := claim_C5_defensive_parse.1 "T" [("id", Json.int 7)]
    (Task.mk 7 "" Json.null false "TZ" Json.null) rfl
  exact ⟨h.1, h.2.1 rfl, h.2.2.1 rfl, h.2.2.2.1 rfl, h.2.2.2.2 (Or.inl rfl)⟩

/-! ## Failed operations do not save -/

theorem deleteLoop_pyInt {tid : Json} {l ts' : List Json}
    (h : deleteLoop tid l = .ok ts') (hne : ts'.length ≠ l.length) :
    ∃ n, pyInt tid = .ok n := by
  induction l generalizing ts' with
  | nil =>
    simp only [deleteLoop, Except.ok.injEq] at h
    subst h
    exact absurd rfl hne
  | cons x xs ih =>
    simp only [deleteLoop] at h
    cases hg : pyGet x "id" .null with
    | error e => simp only [hg] at h; exact absurd h (by simp)
    | ok sidj =>
      simp only [hg] at h
      cases hs : pyInt sidj with
      | error e => simp only [hs] at h; exact absurd h (by simp)
      | ok sid =>
        simp only [hs] at h
        cases ht : pyInt tid with
        | error e => simp only [ht] at h; exact absurd h (by simp)
        | ok tidv => exact ⟨tidv, rfl⟩

/-- Claim C4: whenever an operation fails (empty-after-trim title, absent
task_id, or an uncaught coercion error), `_save_db` is never reached: the
persisted Document is untouched and no result is returned. -/
theorem claim_C4_failed_no_mutation :
    (∀ db title due base e, (add_task db title due base).res = .error e →
      (add_task db title due base).saved? = none) ∧
    (∀ db tid base e, (complete_task db tid base).res = .error e →
      (complete_task db tid base).saved? = none) ∧
    (∀ db tid t? d? base e, (update_task db tid t? d? base).res = .error e →
      (update_task db tid t? d? base).saved? = none) ∧
    (∀ db tid e, (delete_task db tid).res = .error e →
      (delete_task db tid).saved? = none) := by
  refine ⟨?_, ?_, ?_, ?_⟩
  · intro db title due base e h
    unfold add_task at *
    by_cases hT : pyStrip title = ""
    · simp [hT]
    · simp [hT] at h
  · intro db tid base e h
    unfold complete_task at *
    cases hl : completeLoop tid base db.tasks with
    | error e' => simp [hl]
    | ok o =>
      cases o with
      | none => simp [hl]
      | some triple =>
        obtain ⟨ts', tk, sv⟩ := triple
        simp [hl] at h
  · intro db tid t? d? base e h
    unfold update_task at *
    cases hl : updateLoop tid t? d? base db.tasks with
    | error e' => simp [hl]
    | ok o =>
      cases o with
      | none => simp [hl]
      | some pair =>
        obtain ⟨ts', tk⟩ := pair
        simp [hl] at h
  · intro db tid e h
    unfold delete_task at *
    cases hl : deleteLoop tid db.tasks with
    | error e' => simp [hl]
    | ok ts' =>
      by_cases hlen : ts'.length = db.tasks.length
      · simp [hl, hlen]
      · obtain ⟨n, hn⟩ := deleteLoop_pyInt hl hlen
        simp [hl, hlen, hn] at h

theorem claim_C4_witness :
    (add_task ⟨1, []⟩ "  " none "T").saved? = none ∧
    (complete_task ⟨1, []⟩ (.int 3) "T").saved? = none ∧
    (update_task ⟨1, []⟩ (.int 3) none none "T").saved? = none ∧
    (delete_task ⟨1, []⟩ (.int 3)).saved? = none :=
  ⟨claim_C4_failed_no_mutation.1 ⟨1, []⟩ "  " none "T"
      "ValueError: title must be a non-empty string" rfl,
   claim_C4_failed_no_mutation.2.1 ⟨1, []⟩ (.int 3) "T" "ValueError: task_id not found" rfl,
   claim_C4_failed_no_mutation.2.2.1 ⟨1, []⟩ (.int 3) none none "T"
      "ValueError: task_id not found" rfl,
   claim_C4_failed_no_mutation.2.2.2 ⟨1, []⟩ (.int 3) "ValueError: task_id not found" rfl⟩

/-! ## Saves that happen even without a change -/

theorem completeLoop_noop {tid : Json} {base : String} {l l' : List Json} {t : Task}
    (h : completeLoop tid base l = .ok (some (l', t, false))) : l' = l := by
  induction l generalizing l' with
  | nil => simp [completeLoop] at h
  | cons x xs ih =>
    simp only [completeLoop] at h
    cases hg : pyGet x "id" .null with
    | error e => simp only [hg] at h; exact absurd h (by simp)
    | ok sidj =>
      simp only [hg] at h
      cases hs : pyInt sidj with
      | error e => simp only [hs] at h; exact absurd h (by simp)
      | ok sid =>
        simp only [hs] at h
        cases ht : pyInt tid with
        | error e => simp only [ht] at h; exact absurd h (by simp)
        | ok tidv =>
          simp only [ht] at h
          by_cases heq : sid = tidv
          · rw [if_pos heq] at h
            cases hp : task_from_dict base x with
            | error e => simp only [hp] at h; exact absurd h (by simp)
            | ok tk =>
              simp only [hp] at h
              by_cases hc : tk.completed = true
              · rw [if_pos hc] at h
                injection h with h
                injection h with h
                injection h with h4 h
                exact h4.symm
              · rw [if_neg hc] at h
                injection h with h
                injection h with h
                injection h with h4 h
                injection h with h5 h6
                exact absurd h6 (by simp)
          · rw [if_neg heq] at h
            cases hrec : completeLoop tid base xs with
            | error e => simp only [hrec] at h; exact absurd h (by simp)
            | ok o =>
              simp only [hrec] at h
              cases o with
              | none => exact absurd h (by simp)
              | some triple =>
                obtain ⟨ts', tk, sv⟩ := triple
                injection h with h
                injection h with h
                injection h with h4 h
                injection h with h5 h6
                subst h6
                subst h5
                rw [← h4, ih hrec]

/-- Claim C6, counterexample: `clear_completed` on a document with one
incomplete task removes nothing — the invocation leaves the Document equal
to the loaded one — yet it still passes the unchanged document to
`_save_db` (server.py:247 saves unconditionally). -/
theorem claim_C6_counterexample :
    clear_completed ⟨1, [serialize_task ⟨1, "a", Json.null, false, "CZ", Json.null⟩]⟩
      = ⟨.ok 0, some ⟨1, [serialize_task ⟨1, "a", Json.null, false, "CZ", Json.null⟩]⟩⟩ :=
  rfl

theorem deleteLoop_length_le {tid : Json} {l ts' : List Json}
    (h : deleteLoop tid l = .ok ts') : ts'.length ≤ l.length := by
  induction l generalizing ts' with
  | nil =>
    simp only [deleteLoop, Except.ok.injEq] at h
    subst h
    exact le_refl 0
  | cons x xs ih =>
    simp only [deleteLoop] at h
    cases hg : pyGet x "id" .null with
    | error e => simp only [hg] at h; exact absurd h (by simp)
    | ok sidj =>
      simp only [hg] at h
      cases hs : pyInt sidj with
      | error e => simp only [hs] at h; exact absurd h (by simp)
      | ok sid =>
        simp only [hs] at h
        cases ht : pyInt tid with
        | error e => simp only [ht] at h; exact absurd h (by simp)
        | ok tidv =>
          simp only [ht] at h
          cases hrec : deleteLoop tid xs with
          | error e => simp only [hrec] at h; exact absurd h (by simp)
          | ok rest =>
            simp only [hrec, Except.ok.injEq] at h
            subst h
            by_cases hne : sid ≠ tidv
            · rw [if_pos hne]
              simp only [List.length_cons]
              exact Nat.succ_le_succ (ih hrec)
            · rw [if_neg hne]
              exact Nat.le_succ_of_le (ih hrec)

theorem completeLoop_changed {tid : Json} {base : String} {l l' : List Json} {t : Task}
    (h : completeLoop tid base l = .ok (some (l', t, true))) : l' ≠ l := by
  induction l generalizing l' t with
  | nil => simp [completeLoop] at h
  | cons x xs ih =>
    simp only [completeLoop] at h
    cases hg : pyGet x "id" .null with
    | error e => simp only [hg] at h; exact absurd h (by simp)
    | ok sidj =>
      simp only [hg] at h
      cases hs : pyInt sidj with
      | error e => simp only [hs] at h; exact absurd h (by simp)
      | ok sid =>
        simp only [hs] at h
        cases ht : pyInt tid with
        | error e => simp only [ht] at h; exact absurd h (by simp)
        | ok tidv =>
          simp only [ht] at h
          by_cases heq : sid = tidv
          · rw [if_pos heq] at h
            cases hp : task_from_dict base x with
            | error e => simp only [hp] at h; exact absurd h (by simp)
            | ok tk =>
              simp only [hp] at h
              by_cases hc : tk.completed = true
              · rw [if_pos hc] at h
                injection h with h
                injection h with h
                injection h with h4 h
                injection h with h5 h6
                exact absurd h6.symm (by simp)
              · rw [if_neg hc] at h
                injection h with h
                injection h with h
                injection h with h4 h
                subst h4
                intro hEq
                have hhead := ((List.cons.injEq _ _ _ _).mp hEq).1
                have hcomp := (task_from_dict_fields hp).2.2.2.1
                rw [← hhead] at hcomp
                exact hc (by rw [hcomp]; rfl)
          · rw [if_neg heq] at h
            cases hrec : completeLoop tid base xs with
            | error e => simp only [hrec] at h; exact absurd h (by simp)
            | ok o =>
              simp only [hrec] at h
              cases o with
              | none => exact absurd h (by simp)
              | some triple =>
                obtain ⟨ts', tk2, sv2⟩ := triple
                injection h with h
                injection h with h
                injection h with h4 h
                injection h with h5 h6
                subst h6
                subst h4
                intro hEq
                exact ih hrec ((List.cons.injEq _ _ _ _).mp hEq).2

/-- Claim C6 (corrected): `clear_completed` saves on every successful
invocation even when no task is completed, and `update_task` saves whenever
the target is found even when neither title nor due_date is provided; the
remaining mutators save only when they change the Document — `complete_task`
on an already-completed task skips the save (and then the task list is
unchanged), while every save performed by `add_task`, `delete_task` or
`complete_task` writes a Document different from the loaded one (`add_task`
with `next_id` bumped and one more task, `delete_task` with strictly fewer
tasks, `complete_task` with the task list altered). -/
theorem claim_C6_save_behavior :
    (∀ db n, (clear_completed db).res = .ok n → (clear_completed db).saved? ≠ none) ∧
    (∀ db tid base t, (update_task db tid none none base).res = .ok t →
      (update_task db tid none none base).saved? ≠ none) ∧
    (∀ db tid base l' t, completeLoop tid base db.tasks = .ok (some (l', t, false)) →
      (complete_task db tid base).saved? = none ∧ l' = db.tasks) ∧
    (∀ db title due base db', (add_task db title due base).saved? = some db' →
      db'.next_id = db.next_id + 1 ∧ db'.tasks.length = db.tasks.length + 1 ∧ db' ≠ db) ∧
    (∀ db tid db', (delete_task db tid).saved? = some db' →
      db'.tasks.length < db.tasks.length ∧ db' ≠ db) ∧
    (∀ db tid base db', (complete_task db tid base).saved? = some db' →
      db'.tasks ≠ db.tasks ∧ db' ≠ db) := by
  refine ⟨?_, ?_, ?_, ?_, ?_, ?_⟩
  · intro db n h
    unfold clear_completed at *
    cases hl : clearLoop db.tasks with
    | error e => simp [hl] at h
    | ok ts' => simp [hl]
  · intro db tid base t h
    unfold update_task at *
    cases hl : updateLoop tid none none base db.tasks with
    | error e => simp [hl] at h
    | ok o =>
      cases o with
      | none => simp [hl] at h
      | some pair => simp [hl]
  · intro db tid base l' t h
    unfold complete_task
    rw [h]
    exact ⟨rfl, completeLoop_noop h⟩
  · intro db title due base db' h
    unfold add_task at h
    by_cases hT : pyStrip title = ""
    · rw [if_pos hT] at h
      exact absurd h (by simp)
    · rw [if_neg hT] at h
      simp only [Option.some.injEq] at h
      subst h
      refine ⟨rfl, by simp, ?_⟩
      intro hEq
      have hnid := congrArg Db.next_id hEq
      simp only [Db.next_id] at hnid
      omega
  · intro db tid db' h
    unfold delete_task at h
    cases hl : deleteLoop tid db.tasks with
    | error e => simp only [hl] at h; exact absurd h (by simp)
    | ok ts' =>
      simp only [hl] at h
      by_cases hlen : ts'.length = db.tasks.length
      · rw [if_pos hlen] at h
        exact absurd h (by simp)
      · rw [if_neg hlen] at h
        have hlt : ts'.length < db.tasks.length :=
          lt_of_le_of_ne (deleteLoop_length_le hl) hlen
        cases hn : pyInt tid with
        | ok n =>
          simp only [hn, Option.some.injEq] at h
          subst h
          refine ⟨hlt, ?_⟩
          intro hEq
          have hts := congrArg Db.tasks hEq
          simp only [Db.tasks] at hts
          rw [hts] at hlt
          exact absurd hlt (lt_irrefl _)
        | error e =>
          simp only [hn, Option.some.injEq] at h
          subst h
          refine ⟨hlt, ?_⟩
          intro hEq
          have hts := congrArg Db.tasks hEq
          simp only [Db.tasks] at hts
          rw [hts] at hlt
          exact absurd hlt (lt_irrefl _)
  · intro db tid base db' h
    unfold complete_task at h
    cases hl : completeLoop tid base db.tasks with
    | error e => simp only [hl] at h; exact absurd h (by simp)
    | ok o =>
      cases o with
      | none => simp only [hl] at h; exact absurd h (by simp)
      | some triple =>
        obtain ⟨l', tk, sv⟩ := triple
        simp only [hl] at h
        cases sv with
        | false => simp at h
        | true =>
          simp only [if_true, Option.some.injEq] at h
          subst h
          have hchanged := completeLoop_changed hl
          exact ⟨hchanged, fun hEq => hchanged (congrArg Db.tasks hEq)⟩

theorem claim_C6_witness :
    (clear_completed ⟨1, []⟩).saved? ≠ none ∧
    (update_task ⟨2, [serialize_task ⟨1, "a", Json.null, false, "CZ", Json.null⟩]⟩
      (.int 1) none none "T").saved? ≠ none ∧
    (complete_task ⟨2, [serialize_task ⟨1, "a", Json.null, true, "CZ", Json.str "SZ"⟩]⟩
      (.int 1) "T").saved? = none ∧
    ((⟨2, [serialize_task (Task.mk 1 "a" Json.null false "TZ" Json.null)]⟩ : Db).next_id
        = (⟨1, []⟩ : Db).next_id + 1 ∧
      (⟨2, [serialize_task (Task.mk 1 "a" Json.null false "TZ" Json.null)]⟩ : Db).tasks.length
        = (⟨1, []⟩ : Db).tasks.length + 1 ∧
      (⟨2, [serialize_task (Task.mk 1 "a" Json.null false "TZ" Json.null)]⟩ : Db)
        ≠ (⟨1, []⟩ : Db)) ∧
    ((⟨2, []⟩ : Db).tasks.length
        < (⟨2, [serialize_task (Task.mk 1 "a" Json.null false "CZ" Json.null)]⟩ : Db).tasks.length ∧
      (⟨2, []⟩ : Db) ≠ ⟨2, [serialize_task (Task.mk 1 "a" Json.null false "CZ" Json.null)]⟩) ∧
    ((⟨2, [serialize_task (Task.mk 1 "a" Json.null true "CZ" (Json.str "TZ"))]⟩ : Db).tasks
        ≠ (⟨2, [serialize_task (Task.mk 1 "a" Json.null false "CZ" Json.null)]⟩ : Db).tasks ∧
      (⟨2, [serialize_task (Task.mk 1 "a" Json.null true "CZ" (Json.str "TZ"))]⟩ : Db)
        ≠ ⟨2, [serialize_task (Task.mk 1 "a" Json.null false "CZ" Json.null)]⟩) :=
  ⟨claim_C6_save_behavior.1 ⟨1, []⟩ 0 rfl,
   claim_C6_save_behavior.2.1 ⟨2, [serialize_task ⟨1, "a", Json.null, false, "CZ", Json.null⟩]⟩
     (.int 1) "T" ⟨1, "a", Json.null, false, "CZ", Json.null⟩ rfl,
   (claim_C6_save_behavior.2.2.1 ⟨2, [serialize_task ⟨1, "a", Json.null, true, "CZ", Json.str "SZ"⟩]⟩
     (.int 1) "T" [serialize_task ⟨1, "a", Json.null, true, "CZ", Json.str "SZ"⟩]
     ⟨1, "a", Json.null, true, "CZ", Json.str "SZ"⟩ rfl).1,
   claim_C6_save_behavior.2.2.2.1 ⟨1, []⟩ "a" none "T"
     ⟨2, [serialize_task (Task.mk 1 "a" Json.null false "TZ" Json.null)]⟩ rfl,
   claim_C6_save_behavior.2.2.2.2.1
     ⟨2, [serialize_task (Task.mk 1 "a" Json.null false "CZ" Json.null)]⟩ (.int 1)
     ⟨2, []⟩ rfl,
   claim_C6_save_behavior.2.2.2.2.2
     ⟨2, [serialize_task (Task.mk 1 "a" Json.null false "CZ" Json.null)]⟩ (.int 1) "T"
     ⟨2, [serialize_task (Task.mk 1 "a" Json.null true "CZ" (Json.str "TZ"))]⟩ rfl⟩

/-! ## Id allocation -/

theorem strictIncr_cons {a : Int} {rest : List Int}
    (hall : ∀ x ∈ rest, a < x) (hr : strictIncr rest = true) :
    strictIncr (a :: rest) = true := by
  cases rest with
  | nil => rfl
  | cons b t =>
    simp only [strictIncr, Bool.and_eq_true, decide_eq_true_eq]
    exact ⟨hall b (List.mem_cons_self b t), hr⟩

theorem add_task_ok {db : Db} {title : String} {due : Option String} {base : String}
    {t : Task} (h : (add_task db title due base).res = .ok t) :
    t.id = db.next_id ∧
    (add_task db title due base).saved? =
      some ⟨db.next_id + 1, db.tasks ++ [serialize_task t]⟩ := by
  unfold add_task at *
  by_cases hT : pyStrip title = ""
  · rw [if_pos hT] at h
    exact absurd h (by simp)
  · rw [if_neg hT] at h ⊢
    simp only [Except.ok.injEq] at h
    subst h
    exact ⟨rfl, rfl⟩

theorem runAdds_spec (l : List (String × Option String × String)) (m : Medium) :
    strictIncr (runAdds m l).2 = true ∧
    ∀ db, load_db m = .ok db → ∀ i ∈ (runAdds m l).2, db.next_id ≤ i := by
  induction l generalizing m with
  | nil => exact ⟨rfl, by simp [runAdds]⟩
  | cons hd tl ih =>
    obtain ⟨title, due, base⟩ := hd
    cases hld : load_db m with
    | error e =>
      have hrun : runAdds m ((title, due, base) :: tl) = runAdds m tl := by
        simp [runAdds, addInvocation, hld]
      rw [hrun]
      refine ⟨(ih m).1, ?_⟩
      intro db hdb
      exact absurd hdb (by simp)
    | ok db0 =>
      by_cases hT : pyStrip title = ""
      · have hrun : runAdds m ((title, due, base) :: tl) = runAdds m tl := by
          simp [runAdds, addInvocation, hld, add_task, hT]
        rw [hrun]
        refine ⟨(ih m).1, ?_⟩
        intro db hdb
        simp only [Except.ok.injEq] at hdb
        subst hdb
        exact (ih m).2 db0 hld
      · have hpos : 1 ≤ db0.next_id := load_db_next_id_pos hld
        have hrun : runAdds m ((title, due, base) :: tl) =
            ((runAdds (.content (db_to_json ⟨db0.next_id + 1,
                db0.tasks ++ [serialize_task (newTask db0 title due base)]⟩)) tl).1,
              db0.next_id ::
                (runAdds (.content (db_to_json ⟨db0.next_id + 1,
                  db0.tasks ++ [serialize_task (newTask db0 title due base)]⟩)) tl).2) := by
          simp [runAdds, addInvocation, hld, add_task, hT, newTask]
        have hload : load_db (.content (db_to_json ⟨db0.next_id + 1,
              db0.tasks ++ [serialize_task (newTask db0 title due base)]⟩)) =
            .ok ⟨db0.next_id + 1,
              db0.tasks ++ [serialize_task (newTask db0 title due base)]⟩ :=
          load_db_roundtrip _ (by simp only [Db.next_id]; omega)
        obtain ⟨ihA, ihB'⟩ := ih (.content (db_to_json ⟨db0.next_id + 1,
          db0.tasks ++ [serialize_task (newTask db0 title due base)]⟩))
        have ihB := ihB' _ hload
        simp only [Db.next_id] at ihB
        rw [hrun]
        constructor
        · exact strictIncr_cons (fun x hx => by have := ihB x hx; omega) ihA
        · intro db hdb
          simp only [Except.ok.injEq] at hdb
          subst hdb
          intro i hi
          rcases List.mem_cons.mp hi with rfl | hi
          · exact le_refl _
          · have := ihB i hi
            omega

/-- Claim C1: each successful `add_task` allocates exactly the pre-call
`next_id` as the new id and persists `next_id + 1`; consequently the ids of
any sequence of `add_task` invocations against the same backing medium —
each invocation reloading the medium, exactly as across process restarts —
are strictly increasing and never repeat. -/
theorem claim_C1_id_allocation :
    (∀ db title due base t, (add_task db title due base).res = .ok t →
      t.id = db.next_id ∧
      (add_task db title due base).saved? =
        some ⟨db.next_id + 1, db.tasks ++ [serialize_task t]⟩) ∧
    (∀ (m : Medium) inputs, strictIncr (runAdds m inputs).2 = true) :=
  ⟨fun _ _ _ _ _ h => add_task_ok h, fun m inputs => (runAdds_spec inputs m).1⟩

theorem claim_C1_witness :
    (Task.mk 5 "a" Json.null false "TZ" Json.null).id = (5 : Int) ∧
    (add_task ⟨5, []⟩ "a" none "T").saved? =
      some ⟨5 + 1, [] ++ [serialize_task (Task.mk 5 "a" Json.null false "TZ" Json.null)]⟩ :=
  claim_C1_id_allocation.1 ⟨5, []⟩ "a" none "T"
    (Task.mk 5 "a" Json.null false "TZ" Json.null) rfl

/-! ## Idempotent completion -/

theorem pyGet_serialize (t : Task) (k : String) (dflt : Json) :
    pyGet (serialize_task t) k dflt = .ok (jgetD (serialize_task t) k dflt) := rfl

theorem serialize_jget_id (t : Task) (dflt : Json) :
    jgetD (serialize_task t) "id" dflt = .int t.id := rfl

theorem task_from_dict_base_change {base : String} (base' : String) {d : Json} {t : Task}
    (h : task_from_dict base d = .ok t) :
    ∃ t', task_from_dict base' d = .ok t' ∧ t'.id = t.id ∧ t'.title = t.title ∧
      t'.due_date = t.due_date ∧ t'.completed = t.completed ∧
      t'.completed_at = t.completed_at := by
  unfold task_from_dict at *
  cases hg : pyGet d "id" .null with
  | error e => simp only [hg] at h; exact absurd h (by simp)
  | ok idj =>
    simp only [hg] at h ⊢
    cases hi : pyInt idj with
    | error e => simp only [hi] at h; exact absurd h (by simp)
    | ok idv =>
      simp only [hi, Except.ok.injEq] at h ⊢
      subst h
      exact ⟨_, rfl, rfl, rfl, rfl, rfl, rfl⟩

theorem completeLoop_again {tid : Json} {base : String} {l l' : List Json} {t : Task}
    {sv : Bool} (h : completeLoop tid base l = .ok (some (l', t, sv))) (base' : String) :
    ∃ t2, completeLoop tid base' l' = .ok (some (l', t2, false)) ∧
      t2.completed_at = t.completed_at ∧ t2.completed = true ∧ t.completed = true := by
  induction l generalizing l' t sv with
  | nil => simp [completeLoop] at h
  | cons x xs ih =>
    simp only [completeLoop] at h
    cases hg : pyGet x "id" .null with
    | error e => simp only [hg] at h; exact absurd h (by simp)
    | ok sidj =>
      simp only [hg] at h
      cases hs : pyInt sidj with
      | error e => simp only [hs] at h; exact absurd h (by simp)
      | ok sid =>
        simp only [hs] at h
        cases ht : pyInt tid with
        | error e => simp only [ht] at h; exact absurd h (by simp)
        | ok tidv =>
          simp only [ht] at h
          by_cases heq : sid = tidv
          · rw [if_pos heq] at h
            cases hp : task_from_dict base x with
            | error e => simp only [hp] at h; exact absurd h (by simp)
            | ok tk =>
              simp only [hp] at h
              by_cases hc : tk.completed = true
              · rw [if_pos hc] at h
                injection h with h
                injection h with h
                injection h with h4 h
                injection h with h5 h6
                subst h4
                subst h5
                obtain ⟨tk', hp', -, -, -, hcomp', hcat'⟩ :=
                  task_from_dict_base_change base' hp
                refine ⟨tk', ?_, hcat', by rw [hcomp']; exact hc, hc⟩
                simp only [completeLoop, hg, hs, ht, if_pos heq, hp']
                rw [if_pos (by rw [hcomp']; exact hc)]
              · rw [if_neg hc] at h
                injection h with h
                injection h with h
                injection h with h4 h
                injection h with h5 h6
                subst h4
                subst h5
                have hid : tk.id = sid := by
                  have hf := (task_from_dict_fields hp).1
                  unfold rawId at hf
                  rw [hg] at hf
                  simp only [hs, Except.ok.injEq] at hf
                  exact hf.symm
                have hca : tk.created_at ≠ "" := task_from_dict_created_at_ne hp
                set tkC : Task :=
                  { tk with completed := true, completed_at := .str (now_iso base) }
                have hrt : task_from_dict base' (serialize_task tkC) = .ok tkC :=
                  task_from_dict_serialize base' tkC hca
                refine ⟨tkC, ?_, rfl, rfl, rfl⟩
                have hgid : pyInt (Json.int tkC.id) = Except.ok tidv := by
                  simp only [pyInt, Except.ok.injEq]
                  exact hid.trans heq
                simp [completeLoop, pyGet_serialize, serialize_jget_id, hgid, ht, hrt]
          · rw [if_neg heq] at h
            cases hrec : completeLoop tid base xs with
            | error e => simp only [hrec] at h; exact absurd h (by simp)
            | ok o =>
              simp only [hrec] at h
              cases o with
              | none => exact absurd h (by simp)
              | some triple =>
                obtain ⟨ts', tk2, sv2⟩ := triple
                injection h with h
                injection h with h
                injection h with h4 h
                injection h with h5 h6
                subst h4
                subst h5
                obtain ⟨t2, hloop2, hcat, hcomp, hcompt⟩ := ih hrec
                refine ⟨t2, ?_, hcat, hcomp, hcompt⟩
                simp only [completeLoop, hg, hs, ht, if_neg heq, hloop2]

/-- Claim C3: a successful `complete_task` returns a completed task, and a
repeated call on the persisted document (unchanged when the task was already
completed) succeeds, performs no save, and returns the same `completed_at` —
the completion timestamp is never overwritten. -/
theorem claim_C3_complete_idempotent :
    ∀ db tid base t, (complete_task db tid base).res = .ok t →
      t.completed = true ∧
      ∀ base', ∃ t2,
        complete_task ((complete_task db tid base).saved?.getD db) tid base'
          = ⟨.ok t2, none⟩ ∧
        t2.completed_at = t.completed_at := by
  intro db tid base t h
  unfold complete_task at h
  cases hl : completeLoop tid base db.tasks with
  | error e => simp only [hl] at h; exact absurd h (by simp)
  | ok o =>
    cases o with
    | none => simp only [hl] at h; exact absurd h (by simp)
    | some triple =>
      obtain ⟨l', tk, sv⟩ := triple
      simp only [hl, Except.ok.injEq] at h
      subst h
      have hfirst : complete_task db tid base =
          ⟨.ok tk, if sv = true then some ⟨db.next_id, l'⟩ else none⟩ := by
        unfold complete_task
        simp only [hl]
      constructor
      · obtain ⟨-, -, -, -, hct⟩ := completeLoop_again hl base
        exact hct
      · intro base'
        obtain ⟨t2, hloop2, hcat, -, -⟩ := completeLoop_again hl base'
        have hstep : ∀ dbA : Db, dbA.tasks = l' →
            complete_task dbA tid base' = ⟨.ok t2, none⟩ := by
          intro dbA hA
          unfold complete_task
          rw [hA]
          simp only [hloop2]
          simp
        refine ⟨t2, ?_, hcat⟩
        rw [hfirst]
        cases sv with
        | true => exact hstep ⟨db.next_id, l'⟩ rfl
        | false => exact hstep db (completeLoop_noop hl).symm

theorem claim_C3_witness :
    ∃ t2,
      complete_task
        ((complete_task ⟨2, [serialize_task ⟨1, "a", Json.null, false, "CZ", Json.null⟩]⟩
            (.int 1) "T").saved?.getD
          ⟨2, [serialize_task ⟨1, "a", Json.null, false, "CZ", Json.null⟩]⟩)
        (.int 1) "U" = ⟨.ok t2, none⟩ ∧
      t2.completed_at = (Task.mk 1 "a" Json.null true "CZ" (Json.str "TZ")).completed_at :=
  (claim_C3_complete_idempotent ⟨2, [serialize_task ⟨1, "a", Json.null, false, "CZ", Json.null⟩]⟩
    (.int 1) "T" (Task.mk 1 "a" Json.null true "CZ" (Json.str "TZ")) rfl).2 "U"

/-! ## Locating tasks through int() coercion -/

theorem pyInt_int (n : Int) : pyInt (.int n) = .ok n := rfl

theorem completeLoop_coerce {v : Json} {n : Int} (h : pyInt v = .ok n) (base : String)
    (l : List Json) : completeLoop v base l = completeLoop (.int n) base l := by
  induction l with
  | nil => rfl
  | cons x xs ih => simp only [completeLoop, h, pyInt_int, ih]

theorem updateLoop_coerce {v : Json} {n : Int} (h : pyInt v = .ok n)
    (t? d? : Option String) (base : String) (l : List Json) :
    updateLoop v t? d? base l = updateLoop (.int n) t? d? base l := by
  induction l with
  | nil => rfl
  | cons x xs ih => simp only [updateLoop, h, pyInt_int, ih]

theorem deleteLoop_coerce {v : Json} {n : Int} (h : pyInt v = .ok n) (l : List Json) :
    deleteLoop v l = deleteLoop (.int n) l := by
  induction l with
  | nil => rfl
  | cons x xs ih => simp only [deleteLoop, h, pyInt_int, ih]

/-- Claim C10: the locate loops of complete_task, update_task and
delete_task compare `int(stored id) == int(task_id)`, so any supplied
task_id whose `int()` coercion equals `n` behaves exactly like the integer
`n` itself — a float such as 1.9 (`float 19 1`, truncating to 1), the
boolean True, or a numeric string. -/
theorem claim_C10_id_coercion :
    ∀ v n, pyInt v = .ok n →
      (∀ db base, complete_task db v base = complete_task db (.int n) base) ∧
      (∀ db t? d? base, update_task db v t? d? base = update_task db (.int n) t? d? base) ∧
      (∀ db, delete_task db v = delete_task db (.int n)) := by
  intro v n h
  refine ⟨?_, ?_, ?_⟩
  · intro db base
    unfold complete_task
    rw [completeLoop_coerce h]
  · intro db t? d? base
    unfold update_task
    rw [updateLoop_coerce h]
  · intro db
    unfold delete_task
    rw [deleteLoop_coerce h]
    simp only [h, pyInt_int]

theorem claim_C10_witness :
    complete_task ⟨2, [serialize_task ⟨1, "a", Json.null, false, "CZ", Json.null⟩]⟩
        (.float 19 1) "T"
      = complete_task ⟨2, [serialize_task ⟨1, "a", Json.null, false, "CZ", Json.null⟩]⟩
        (.int 1) "T" ∧
    complete_task ⟨2, [serialize_task ⟨1, "a", Json.null, false, "CZ", Json.null⟩]⟩
        (.bool true) "T"
      = complete_task ⟨2, [serialize_task ⟨1, "a", Json.null, false, "CZ", Json.null⟩]⟩
        (.int 1) "T" ∧
    delete_task ⟨2, [serialize_task ⟨1, "a", Json.null, false, "CZ", Json.null⟩]⟩ (.str " 1 ")
      = delete_task ⟨2, [serialize_task ⟨1, "a", Json.null, false, "CZ", Json.null⟩]⟩
        (.int 1) :=
  ⟨(claim_C10_id_coercion (.float 19 1) 1 rfl).1
      ⟨2, [serialize_task ⟨1, "a", Json.null, false, "CZ", Json.null⟩]⟩ "T",
   (claim_C10_id_coercion (.bool true) 1 rfl).1
      ⟨2, [serialize_task ⟨1, "a", Json.null, false, "CZ", Json.null⟩]⟩ "T",
   (claim_C10_id_coercion (.str " 1 ") 1 rfl).2.2
      ⟨2, [serialize_task ⟨1, "a", Json.null, false, "CZ", Json.null⟩]⟩⟩

/-! ## Listing: filter and sort -/

theorem taskLe_trans (a b c : Task) (h1 : taskLe a b = true) (h2 : taskLe b c = true) :
    taskLe a c = true := by
  cases ha : a.completed <;> cases hb : b.completed <;> cases hc : c.completed <;>
    simp_all [taskLe] <;> omega

theorem taskLe_total (a b : Task) : (taskLe a b || taskLe b a) = true := by
  cases ha : a.completed <;> cases hb : b.completed <;> simp_all [taskLe] <;> omega

theorem task_from_dict_obj {base : String} {d : Json} {t : Task}
    (h : task_from_dict base d = .ok t) : ∃ fs, d = .obj fs := by
  cases d with
  | obj fs => exact ⟨fs, rfl⟩
  | null => exact absurd h (by simp [task_from_dict, pyGet])
  | bool b => exact absurd h (by simp [task_from_dict, pyGet])
  | int n => exact absurd h (by simp [task_from_dict, pyGet])
  | float m e => exact absurd h (by simp [task_from_dict, pyGet])
  | str s => exact absurd h (by simp [task_from_dict, pyGet])
  | arr xs => exact absurd h (by simp [task_from_dict, pyGet])

theorem parseFiltered_eq {base : String} {b : Bool} {ts : List Json}
    (H : ∀ j ∈ ts, ∃ t, task_from_dict base j = .ok t) :
    parseFiltered base b ts =
      .ok ((ts.filter (fun j => pyBool (jgetD j "completed" (.bool false)) == b)).filterMap
        (fun j => (task_from_dict base j).toOption)) := by
  induction ts with
  | nil => rfl
  | cons x xs ih =>
    obtain ⟨tx, hx⟩ := H x (List.mem_cons_self x xs)
    obtain ⟨fs, rfl⟩ := task_from_dict_obj hx
    have Hxs : ∀ j ∈ xs, ∃ t, task_from_dict base j = .ok t :=
      fun j hj => H j (List.mem_cons_of_mem _ hj)
    simp only [parseFiltered, pyGet]
    by_cases hc : pyBool (jgetD (.obj fs) "completed" (.bool false)) = b
    · rw [if_pos hc, hx, ih Hxs]
      simp [List.filter_cons, hc, List.filterMap_cons, hx, Except.toOption]
    · rw [if_neg hc, ih Hxs]
      simp [List.filter_cons, hc]

/-- Claim C7: when every stored record parses, `list_tasks` returns exactly
the (parses of the) tasks whose raw completed flag equals `is_completed`,
ordered by the key (completed, id) — completed ascending with false before
true, then id ascending. -/
theorem claim_C7_list_filter_sort :
    ∀ db b base l,
      (∀ j ∈ db.tasks, ∃ t, task_from_dict base j = .ok t) →
      list_tasks db b base = .ok l →
      (∀ t ∈ l, t.completed = b) ∧
      List.Pairwise (fun a c => taskLe a c = true) l ∧
      l.Perm ((db.tasks.filter
          (fun j => pyBool (jgetD j "completed" (.bool false)) == b)).filterMap
        (fun j => (task_from_dict base j).toOption)) := by
  intro db b base l H h
  unfold list_tasks at h
  rw [parseFiltered_eq H] at h
  simp only [Except.ok.injEq] at h
  subst h
  refine ⟨?_, ?_, ?_⟩
  · intro t ht
    have hmem := (List.mergeSort_perm _ taskLe).mem_iff.mp ht
    obtain ⟨j, hjmem, hjeq⟩ := List.mem_filterMap.mp hmem
    cases hparse : task_from_dict base j with
    | error e => rw [hparse] at hjeq; exact absurd hjeq (by simp [Except.toOption])
    | ok tj =>
      rw [hparse] at hjeq
      simp only [Except.toOption, Option.some.injEq] at hjeq
      subst hjeq
      have hcond := (List.mem_filter.mp hjmem).2
      have hcomp := (task_from_dict_fields hparse).2.2.2.1
      rw [hcomp]
      exact beq_iff_eq.mp hcond
  · exact List.sorted_mergeSort taskLe_trans taskLe_total _
  · exact List.mergeSort_perm _ taskLe

theorem claim_C7_witness :
    (∀ t ∈ [Task.mk 1 "a" Json.null false "CZ" Json.null,
            Task.mk 2 "b" Json.null false "CZ" Json.null], t.completed = false) ∧
    List.Pairwise (fun a c => taskLe a c = true)
      [Task.mk 1 "a" Json.null false "CZ" Json.null,
       Task.mk 2 "b" Json.null false "CZ" Json.null] ∧
    List.Perm
      [Task.mk 1 "a" Json.null false "CZ" Json.null,
       Task.mk 2 "b" Json.null false "CZ" Json.null]
      (((⟨3, [serialize_task ⟨2, "b", Json.null, false, "CZ", Json.null⟩,
              serialize_task ⟨1, "a", Json.null, false, "CZ", Json.null⟩]⟩ : Db).tasks.filter
          (fun j => pyBool (jgetD j "completed" (.bool false)) == false)).filterMap
        (fun j => (task_from_dict "T" j).toOption)) := by
  apply claim_C7_list_filter_sort
    ⟨3, [serialize_task ⟨2, "b", Json.null, false, "CZ", Json.null⟩,
         serialize_task ⟨1, "a", Json.null, false, "CZ", Json.null⟩]⟩ false "T"
  · intro j hj
    rcases List.mem_cons.mp hj with rfl | hj
    · exact ⟨⟨2, "b", Json.null, false, "CZ", Json.null⟩, rfl⟩
    · rcases List.mem_cons.mp hj with rfl | hj
      · exact ⟨⟨1, "a", Json.null, false, "CZ", Json.null⟩, rfl⟩
      · exact absurd hj (by simp)
  · simp [list_tasks, parseFiltered, pyGet, jgetD, List.lookup, task_from_dict,
      pyInt, pyStr, pyBool, serialize_task, List.mergeSort, List.merge, taskLe]

/-! ## The completed/completed_at biconditional -/

theorem serialize_jget_completed (t : Task) (dflt : Json) :
    jgetD (serialize_task t) "completed" dflt = .bool t.completed := rfl

theorem serialize_jget_completed_at (t : Task) (dflt : Json) :
    jgetD (serialize_task t) "completed_at" dflt = t.completed_at := rfl

theorem rawOK_serialize (t : Task) : rawOK (serialize_task t) ↔ TaskOK t := by
  unfold rawOK TaskOK
  rw [serialize_jget_completed_at, serialize_jget_completed]
  simp [pyBool]

theorem taskOK_of_parse {base : String} {d : Json} {t : Task}
    (h : task_from_dict base d = .ok t) (hd : rawOK d) : TaskOK t := by
  obtain ⟨-, -, -, hcomp, hcat, -⟩ := task_from_dict_fields h
  unfold TaskOK
  rw [hcomp, hcat]
  exact hd

theorem applyTitle_fields {t? : Option String} {tk tk2 : Task}
    (h : applyTitle t? tk = .ok tk2) :
    tk2.completed = tk.completed ∧ tk2.completed_at = tk.completed_at := by
  cases t? with
  | none =>
    simp only [applyTitle, Except.ok.injEq] at h
    subst h
    exact ⟨rfl, rfl⟩
  | some s =>
    simp only [applyTitle] at h
    by_cases hs : pyStrip s = ""
    · rw [if_pos hs] at h; exact absurd h (by simp)
    · rw [if_neg hs] at h
      simp only [Except.ok.injEq] at h
      subst h
      exact ⟨rfl, rfl⟩

theorem applyDue_fields (d? : Option String) (tk : Task) :
    (applyDue d? tk).completed = tk.completed ∧
    (applyDue d? tk).completed_at = tk.completed_at := by
  cases d? <;> exact ⟨rfl, rfl⟩

theorem completeLoop_rawOK {tid : Json} {base : String} {l l' : List Json} {t : Task}
    {sv : Bool} (h : completeLoop tid base l = .ok (some (l', t, sv)))
    (H : ∀ j ∈ l, rawOK j) : (∀ j ∈ l', rawOK j) ∧ TaskOK t := by
  induction l generalizing l' t sv with
  | nil => simp [completeLoop] at h
  | cons x xs ih =>
    have Hx := H x (List.mem_cons_self x xs)
    have Hxs : ∀ j ∈ xs, rawOK j := fun j hj => H j (List.mem_cons_of_mem _ hj)
    simp only [completeLoop] at h
    cases hg : pyGet x "id" .null with
    | error e => simp only [hg] at h; exact absurd h (by simp)
    | ok sidj =>
      simp only [hg] at h
      cases hs : pyInt sidj with
      | error e => simp only [hs] at h; exact absurd h (by simp)
      | ok sid =>
        simp only [hs] at h
        cases ht : pyInt tid with
        | error e => simp only [ht] at h; exact absurd h (by simp)
        | ok tidv =>
          simp only [ht] at h
          by_cases heq : sid = tidv
          · rw [if_pos heq] at h
            cases hp : task_from_dict base x with
            | error e => simp only [hp] at h; exact absurd h (by simp)
            | ok tk =>
              simp only [hp] at h
              by_cases hc : tk.completed = true
              · rw [if_pos hc] at h
                injection h with h
                injection h with h
                injection h with h4 h
                injection h with h5 h6
                subst h4
                subst h5
                exact ⟨H, taskOK_of_parse hp Hx⟩
              · rw [if_neg hc] at h
                injection h with h
                injection h with h
                injection h with h4 h
                injection h with h5 h6
                subst h4
                subst h5
                have htC :
                    TaskOK { tk with completed := true, completed_at := Json.str (now_iso base) } :=
                  ⟨fun _ => rfl, fun _ h => nomatch h⟩
                refine ⟨?_, htC⟩
                intro j hj
                rcases List.mem_cons.mp hj with rfl | hj
                · exact (rawOK_serialize _).mpr htC
                · exact Hxs j hj
          · rw [if_neg heq] at h
            cases hrec : completeLoop tid base xs with
            | error e => simp only [hrec] at h; exact absurd h (by simp)
            | ok o =>
              simp only [hrec] at h
              cases o with
              | none => exact absurd h (by simp)
              | some triple =>
                obtain ⟨ts', tk2, sv2⟩ := triple
                injection h with h
                injection h with h
                injection h with h4 h
                injection h with h5 h6
                subst h4
                subst h5
                obtain ⟨ihA, ihB⟩ := ih hrec Hxs
                refine ⟨?_, ihB⟩
                intro j hj
                rcases List.mem_cons.mp hj with rfl | hj
                · exact Hx
                · exact ihA j hj

theorem updateLoop_rawOK {tid : Json} {t? d? : Option String} {base : String}
    {l l' : List Json} {t : Task}
    (h : updateLoop tid t? d? base l = .ok (some (l', t)))
    (H : ∀ j ∈ l, rawOK j) : (∀ j ∈ l', rawOK j) ∧ TaskOK t := by
  induction l generalizing l' t with
  | nil => simp [updateLoop] at h
  | cons x xs ih =>
    have Hx := H x (List.mem_cons_self x xs)
    have Hxs : ∀ j ∈ xs, rawOK j := fun j hj => H j (List.mem_cons_of_mem _ hj)
    simp only [updateLoop] at h
    cases hg : pyGet x "id" .null with
    | error e => simp only [hg] at h; exact absurd h (by simp)
    | ok sidj =>
      simp only [hg] at h
      cases hs : pyInt sidj with
      | error e => simp only [hs] at h; exact absurd h (by simp)
      | ok sid =>
        simp only [hs] at h
        cases ht : pyInt tid with
        | error e => simp only [ht] at h; exact absurd h (by simp)
        | ok tidv =>
          simp only [ht] at h
          by_cases heq : sid = tidv
          · rw [if_pos heq] at h
            cases hp : task_from_dict base x with
            | error e => simp only [hp] at h; exact absurd h (by simp)
            | ok tk =>
              simp only [hp] at h
              cases hT : applyTitle t? tk with
              | error e => simp only [hT] at h; exact absurd h (by simp)
              | ok tk2 =>
                simp only [hT] at h
                injection h with h
                injection h with h
                injection h with h4 h5
                subst h4
                subst h5
                have hok : TaskOK (applyDue d? tk2) := by
                  unfold TaskOK
                  rw [(applyDue_fields d? tk2).1, (applyDue_fields d? tk2).2,
                    (applyTitle_fields hT).1, (applyTitle_fields hT).2]
                  exact taskOK_of_parse hp Hx
                refine ⟨?_, hok⟩
                intro j hj
                rcases List.mem_cons.mp hj with rfl | hj
                · exact (rawOK_serialize _).mpr hok
                · exact Hxs j hj
          · rw [if_neg heq] at h
            cases hrec : updateLoop tid t? d? base xs with
            | error e => simp only [hrec] at h; exact absurd h (by simp)
            | ok o =>
              simp only [hrec] at h
              cases o with
              | none => exact absurd h (by simp)
              | some pair =>
                obtain ⟨ts', tk2⟩ := pair
                injection h with h
                injection h with h
                injection h with h4 h5
                subst h4
                subst h5
                obtain ⟨ihA, ihB⟩ := ih hrec Hxs
                refine ⟨?_, ihB⟩
                intro j hj
                rcases List.mem_cons.mp hj with rfl | hj
                · exact Hx
                · exact ihA j hj

theorem deleteLoop_subset {tid : Json} {l ts' : List Json}
    (h : deleteLoop tid l = .ok ts') : ∀ j ∈ ts', j ∈ l := by
  induction l generalizing ts' with
  | nil =>
    simp only [deleteLoop, Except.ok.injEq] at h
    subst h
    simp
  | cons x xs ih =>
    simp only [deleteLoop] at h
    cases hg : pyGet x "id" .null with
    | error e => simp only [hg] at h; exact absurd h (by simp)
    | ok sidj =>
      simp only [hg] at h
      cases hs : pyInt sidj with
      | error e => simp only [hs] at h; exact absurd h (by simp)
      | ok sid =>
        simp only [hs] at h
        cases ht : pyInt tid with
        | error e => simp only [ht] at h; exact absurd h (by simp)
        | ok tidv =>
          simp only [ht] at h
          cases hrec : deleteLoop tid xs with
          | error e => simp only [hrec] at h; exact absurd h (by simp)
          | ok rest =>
            simp only [hrec, Except.ok.injEq] at h
            subst h
            intro j hj
            by_cases heq : sid ≠ tidv
            · rw [if_pos heq] at hj
              rcases List.mem_cons.mp hj with rfl | hj
              · exact List.mem_cons_self j xs
              · exact List.mem_cons_of_mem _ (ih hrec j hj)
            · rw [if_neg heq] at hj
              exact List.mem_cons_of_mem _ (ih hrec j hj)

theorem clearLoop_subset {l ts' : List Json}
    (h : clearLoop l = .ok ts') : ∀ j ∈ ts', j ∈ l := by
  induction l generalizing ts' with
  | nil =>
    simp only [clearLoop, Except.ok.injEq] at h
    subst h
    simp
  | cons x xs ih =>
    simp only [clearLoop] at h
    cases hg : pyGet x "completed" (.bool false) with
    | error e => simp only [hg] at h; exact absurd h (by simp)
    | ok c =>
      simp only [hg] at h
      cases hrec : clearLoop xs with
      | error e => simp only [hrec] at h; exact absurd h (by simp)
      | ok rest =>
        simp only [hrec, Except.ok.injEq] at h
        subst h
        intro j hj
        by_cases hc : (!pyBool c) = true
        · rw [if_pos hc] at hj
          rcases List.mem_cons.mp hj with rfl | hj
          · exact List.mem_cons_self j xs
          · exact List.mem_cons_of_mem _ (ih hrec j hj)
        · rw [if_neg hc] at hj
          exact List.mem_cons_of_mem _ (ih hrec j hj)

/-- Claim C8: `completed_at` is non-null iff `completed` is true —
`add_task` creates tasks with completed = false and completed_at = null,
`complete_task` sets both together, `update_task` touches neither, and
`delete_task`/`clear_completed` only remove records; each operation
preserves the biconditional for the task it returns and for every record it
persists. -/
theorem claim_C8_completed_iff :
    (∀ db title due base t, (add_task db title due base).res = .ok t →
      (t.completed = false ∧ t.completed_at = Json.null) ∧
      ∀ db', (add_task db title due base).saved? = some db' → DbOK db → DbOK db') ∧
    (∀ db tid base t, DbOK db → (complete_task db tid base).res = .ok t →
      TaskOK t ∧ ∀ db', (complete_task db tid base).saved? = some db' → DbOK db') ∧
    (∀ db tid t? d? base t, DbOK db → (update_task db tid t? d? base).res = .ok t →
      TaskOK t ∧ ∀ db', (update_task db tid t? d? base).saved? = some db' → DbOK db') ∧
    (∀ db tid db', DbOK db → (delete_task db tid).saved? = some db' → DbOK db') ∧
    (∀ db db', DbOK db → (clear_completed db).saved? = some db' → DbOK db') := by
  refine ⟨?_, ?_, ?_, ?_, ?_⟩
  · intro db title due base t h
    unfold add_task at *
    by_cases hT : pyStrip title = ""
    · rw [if_pos hT] at h
      exact absurd h (by simp)
    · rw [if_neg hT] at h ⊢
      simp only [Except.ok.injEq] at h
      subst h
      refine ⟨⟨rfl, rfl⟩, ?_⟩
      intro db' hdb' H
      simp only [Option.some.injEq] at hdb'
      subst hdb'
      intro j hj
      rcases List.mem_append.mp hj with hj | hj
      · exact H j hj
      · rcases List.mem_singleton.mp hj with rfl
        exact (rawOK_serialize _).mpr ⟨fun hne => absurd rfl hne, fun hf => nomatch hf⟩
  · intro db tid base t H h
    unfold complete_task at *
    cases hl : completeLoop tid base db.tasks with
    | error e => simp only [hl] at h; exact absurd h (by simp)
    | ok o =>
      cases o with
      | none => simp only [hl] at h; exact absurd h (by simp)
      | some triple =>
        obtain ⟨l', tk, sv⟩ := triple
        simp only [hl, Except.ok.injEq] at h ⊢
        subst h
        obtain ⟨hall, hok⟩ := completeLoop_rawOK hl H
        refine ⟨hok, ?_⟩
        intro db' hdb'
        cases sv with
        | false => simp at hdb'
        | true =>
          simp only [if_true, Option.some.injEq] at hdb'
          subst hdb'
          exact hall
  · intro db tid t? d? base t H h
    unfold update_task at *
    cases hl : updateLoop tid t? d? base db.tasks with
    | error e => simp only [hl] at h; exact absurd h (by simp)
    | ok o =>
      cases o with
      | none => simp only [hl] at h; exact absurd h (by simp)
      | some pair =>
        obtain ⟨ts', tk⟩ := pair
        simp only [hl, Except.ok.injEq] at h ⊢
        subst h
        obtain ⟨hall, hok⟩ := updateLoop_rawOK hl H
        refine ⟨hok, ?_⟩
        intro db' hdb'
        simp only [Option.some.injEq] at hdb'
        subst hdb'
        exact hall
  · intro db tid db' H h
    unfold delete_task at h
    cases hl : deleteLoop tid db.tasks with
    | error e => simp only [hl] at h; exact absurd h (by simp)
    | ok ts' =>
      simp only [hl] at h
      by_cases hlen : ts'.length = db.tasks.length
      · rw [if_pos hlen] at h
        exact absurd h (by simp)
      · rw [if_neg hlen] at h
        cases hn : pyInt tid with
        | ok n =>
          simp only [hn, Option.some.injEq] at h
          subst h
          exact fun j hj => H j (deleteLoop_subset hl j hj)
        | error e =>
          simp only [hn, Option.some.injEq] at h
          subst h
          exact fun j hj => H j (deleteLoop_subset hl j hj)
  · intro db db' H h
    unfold clear_completed at h
    cases hl : clearLoop db.tasks with
    | error e => simp only [hl] at h; exact absurd h (by simp)
    | ok ts' =>
      simp only [hl, Option.some.injEq] at h
      subst h
      exact fun j hj => H j (clearLoop_subset hl j hj)

theorem claim_C8_witness :
    TaskOK (Task.mk 1 "a" Json.null true "CZ" (Json.str "TZ")) ∧
    DbOK ⟨2, [serialize_task (Task.mk 1 "a" Json.null true "CZ" (Json.str "TZ"))]⟩ := by
  have hdb : DbOK ⟨2, [serialize_task (Task.mk 1 "a" Json.null false "CZ" Json.null)]⟩ := by
    intro j hj
    rcases List.mem_singleton.mp hj with rfl
    exact ⟨fun hne => absurd rfl hne, fun hf => nomatch hf⟩
  have h := claim_C8_completed_iff.2.1
    ⟨2, [serialize_task (Task.mk 1 "a" Json.null false "CZ" Json.null)]⟩ (.int 1) "T"
    (Task.mk 1 "a" Json.null true "CZ" (Json.str "TZ")) hdb rfl
  exact ⟨h.1, h.2 ⟨2, [serialize_task (Task.mk 1 "a" Json.null true "CZ" (Json.str "TZ"))]⟩ rfl⟩

/-! ## Deletion -/

theorem rawId_steps {j : Json} {m : Int} (h : rawId j = .ok m) :
    ∃ sidj, pyGet j "id" .null = .ok sidj ∧ pyInt sidj = .ok m := by
  unfold rawId at h
  cases hg : pyGet j "id" .null with
  | error e => rw [hg] at h; exact absurd h (by simp)
  | ok sidj => rw [hg] at h; exact ⟨sidj, rfl, h⟩

theorem deleteLoop_noMatch {tid : Json} {n : Int} {l : List Json}
    (H : ∀ j ∈ l, ∃ m, rawId j = .ok m ∧ m ≠ n) (htid : pyInt tid = .ok n) :
    deleteLoop tid l = .ok l := by
  induction l with
  | nil => rfl
  | cons x xs ih =>
    obtain ⟨mx, hmx, hne⟩ := H x (List.mem_cons_self x xs)
    obtain ⟨sidj, hg, hi⟩ := rawId_steps hmx
    have ihx := ih (fun j hj => H j (List.mem_cons_of_mem _ hj))
    simp only [deleteLoop, hg, hi, htid, ihx]
    rw [if_pos hne]

theorem deleteLoop_found {tid : Json} {n : Int} {l : List Json}
    (htid : pyInt tid = .ok n)
    (Hids : ∀ j ∈ l, ∃ m, rawId j = .ok m)
    (Huniq : l.Pairwise (fun a b => rawId a ≠ rawId b))
    (Hmem : ∃ j ∈ l, rawId j = .ok n) :
    ∃ ts', deleteLoop tid l = .ok ts' ∧ ts'.length + 1 = l.length ∧
      (∀ j ∈ ts', rawId j ≠ .ok n) ∧ (∀ j ∈ ts', j ∈ l) := by
  induction l with
  | nil => simp at Hmem
  | cons x xs ih =>
    obtain ⟨mx, hmx⟩ := Hids x (List.mem_cons_self x xs)
    obtain ⟨sidj, hg, hi⟩ := rawId_steps hmx
    have hpair := (List.pairwise_cons.mp Huniq).1
    have Huniq' := (List.pairwise_cons.mp Huniq).2
    by_cases hxn : mx = n
    · subst hxn
      have hxs_noMatch : ∀ j ∈ xs, ∃ m, rawId j = .ok m ∧ m ≠ mx := by
        intro j hj
        obtain ⟨mj, hmj⟩ := Hids j (List.mem_cons_of_mem _ hj)
        refine ⟨mj, hmj, ?_⟩
        intro hmeq
        subst hmeq
        exact hpair j hj (hmx.trans hmj.symm)
      have hxs := deleteLoop_noMatch hxs_noMatch htid
      refine ⟨xs, ?_, rfl, ?_, fun j hj => List.mem_cons_of_mem _ hj⟩
      · simp only [deleteLoop, hg, hi, htid, hxs]
        rw [if_neg (by simp)]
      · intro j hj hjn
        obtain ⟨mj, hmj, hne⟩ := hxs_noMatch j hj
        rw [hmj] at hjn
        exact hne (Except.ok.inj hjn)
    · have Hmem' : ∃ j ∈ xs, rawId j = .ok n := by
        obtain ⟨j, hj, hjn⟩ := Hmem
        rcases List.mem_cons.mp hj with rfl | hj
        · exact absurd (Except.ok.inj (hmx.symm.trans hjn)) hxn
        · exact ⟨j, hj, hjn⟩
      obtain ⟨ts'', hloop, hlen, hnone, hsub⟩ :=
        ih (fun j hj => Hids j (List.mem_cons_of_mem _ hj)) Huniq' Hmem'
      refine ⟨x :: ts'', ?_, ?_, ?_, ?_⟩
      · simp only [deleteLoop, hg, hi, htid, hloop]
        rw [if_pos hxn]
      · simp only [List.length_cons]
        omega
      · intro j hj
        rcases List.mem_cons.mp hj with rfl | hj
        · rw [hmx]
          intro hc
          exact hxn (Except.ok.inj hc)
        · exact hnone j hj
      · intro j hj
        rcases List.mem_cons.mp hj with rfl | hj
        · exact List.mem_cons_self j xs
        · exact List.mem_cons_of_mem _ (hsub j hj)

/-- Claim C9: delete_task on an id not present fails with the not-found
error and performs no save (count unchanged); on a present id — with
well-formed, duplicate-free stored ids — it removes exactly that task,
returns `{deleted := true, task_id}`, persists a document with one fewer
task, and the id no longer appears in any subsequent list_tasks result. -/
theorem claim_C9_delete :
    (∀ db tid n, pyInt tid = .ok n →
      (∀ j ∈ db.tasks, ∃ m, rawId j = .ok m ∧ m ≠ n) →
      delete_task db tid = ⟨.error "ValueError: task_id not found", none⟩) ∧
    (∀ db tid n,
      pyInt tid = .ok n →
      (∀ j ∈ db.tasks, ∃ m, rawId j = .ok m) →
      db.tasks.Pairwise (fun a b => rawId a ≠ rawId b) →
      (∃ j ∈ db.tasks, rawId j = .ok n) →
      ∃ ts', delete_task db tid = ⟨.ok ⟨true, n⟩, some ⟨db.next_id, ts'⟩⟩ ∧
        ts'.length + 1 = db.tasks.length ∧
        (∀ j ∈ ts', rawId j ≠ .ok n) ∧
        (∀ b base l, list_tasks ⟨db.next_id, ts'⟩ b base = .ok l →
          ∀ t ∈ l, t.id ≠ n)) := by
  constructor
  · intro db tid n htid Hnone
    have hl := deleteLoop_noMatch Hnone htid
    unfold delete_task
    simp only [hl]
    rw [if_true]
  · intro db tid n htid Hids Huniq Hmem
    obtain ⟨ts', hloop, hlen, hnone, -⟩ := deleteLoop_found htid Hids Huniq Hmem
    refine ⟨ts', ?_, hlen, hnone, ?_⟩
    · unfold delete_task
      simp only [hloop, htid]
      rw [if_neg (by omega)]
    · intro b base l hlist t ht
      obtain ⟨j, hjmem, hparse⟩ := list_tasks_mem hlist t ht
      intro htn
      have hid := (task_from_dict_fields hparse).1
      rw [htn] at hid
      exact hnone j hjmem hid

theorem claim_C9_witness :
    ∃ ts',
      delete_task ⟨3, [serialize_task ⟨1, "a", Json.null, false, "CZ", Json.null⟩,
          serialize_task ⟨2, "b", Json.null, false, "CZ", Json.null⟩]⟩ (.int 1)
        = ⟨.ok ⟨true, 1⟩, some ⟨3, ts'⟩⟩ ∧
      ts'.length + 1 =
        ([serialize_task (Task.mk 1 "a" Json.null false "CZ" Json.null),
          serialize_task (Task.mk 2 "b" Json.null false "CZ" Json.null)]).length ∧
      (∀ j ∈ ts', rawId j ≠ .ok 1) ∧
      (∀ b base l, list_tasks ⟨3, ts'⟩ b base = .ok l → ∀ t ∈ l, t.id ≠ 1) := by
  apply claim_C9_delete.2
    ⟨3, [serialize_task ⟨1, "a", Json.null, false, "CZ", Json.null⟩,
         serialize_task ⟨2, "b", Json.null, false, "CZ", Json.null⟩]⟩ (.int 1) 1 rfl
  · intro j hj
    rcases List.mem_cons.mp hj with rfl | hj
    · exact ⟨1, rfl⟩
    · rcases List.mem_cons.mp hj with rfl | hj
      · exact ⟨2, rfl⟩
      · exact absurd hj (by simp)
  · refine List.Pairwise.cons ?_ (List.Pairwise.cons (by simp) List.Pairwise.nil)
    intro j hj
    rcases List.mem_cons.mp hj with rfl | hj
    · intro hc
      exact absurd (Except.ok.inj hc) (by decide)
    · exact absurd hj (by simp)
  · exact ⟨serialize_task ⟨1, "a", Json.null, false, "CZ", Json.null⟩,
      List.mem_cons_self _ _, rfl⟩

end Todo
